import Mathlib

/-!
Verification of the `WisdomVectorStore` core of the munger repository
(`src/munger/db/vector_store.py`), a file-backed vector store with
brute-force cosine-similarity search.

The embedding is shallow: Python floats are modelled as real numbers,
numpy arrays as lists of reals, the two backing files as explicit
`Option (FileContent _)` fields of the store state (`none` = file absent,
`FileContent.malformed` = present but unparsable, `FileContent.parsed x`
= present with content `x`), and the sentence-transformer embedding model
as an opaque function parameter `embed : String → Vec`.  `np.argsort`
(ascending) is modelled as an insertion sort of indices by the
lexicographic key (value, index); the code then reverses it with
`[::-1]`.  numpy's default `kind='quicksort'` guarantees only the value
order, not any tie order, so the key's index component is a
determinization of the model, not a property of the source: theorems
must not depend on it except at arrays of at most 16 elements, where
numpy's introsort provably runs its stable insertion-sort base case and
the model's tie order coincides with the program's.  Python's
`list.sort`, a stable sort, is modelled by a stable insertion sort.
Uncaught Python exceptions raised while parsing the backing files are
modelled as `Except.error CorruptStoreError`.
-/

namespace Munger

/-- An embedding vector (one row of the numpy matrix). -/
abbrev Vec := List ℝ

/-- `np.dot` of two vectors (model: pointwise product, summed). -/
def dotList (a b : Vec) : ℝ := (List.zipWith (fun x y => x * y) a b).sum

/-- Sum of squares of the entries of a vector. -/
def normSq (a : Vec) : ℝ := (a.map (fun x => x * x)).sum

/-- `np.linalg.norm`: the Euclidean norm. -/
noncomputable def l2norm (a : Vec) : ℝ := Real.sqrt (normSq a)

/-- The `WisdomCategory` enumeration of `core/models.py`. -/
inductive WisdomCategory
  | mental_model
  | quote
  | principle
  | story
  | speech_excerpt
  | book_excerpt
deriving DecidableEq, Repr

/-- The `.value` string of each `WisdomCategory` member. -/
def WisdomCategory.value : WisdomCategory → String
  | .mental_model => "mental_model"
  | .quote => "quote"
  | .principle => "principle"
  | .story => "story"
  | .speech_excerpt => "speech_excerpt"
  | .book_excerpt => "book_excerpt"

/-- The `MungerWisdom` pydantic model (the fields the store persists;
the UUID `id` is modelled by its string rendering, so `str(wisdom.id)`
is the identity here). -/
structure MungerWisdom where
  id : String
  category : WisdomCategory
  title : String
  content : String
  source : String
  year : Option Int
  tags : List String
  related_models : List String
deriving DecidableEq, Repr

/-- One element of `self._data`: the plain dict built in `add_wisdom`. -/
structure WisdomItem where
  id : String
  category : String
  title : String
  content : String
  source : String
  tags : List String
  related_models : List String
  year : Option Int
deriving DecidableEq, Repr, Inhabited

/-- The dict `add_wisdom` / `add_wisdom_batch` store for a `MungerWisdom`. -/
def wisdomToItem (w : MungerWisdom) : WisdomItem :=
  { id := w.id
    category := w.category.value
    title := w.title
    content := w.content
    source := w.source
    tags := w.tags
    related_models := w.related_models
    year := w.year }

/-- Content of a backing file that is present on disk: either unparsable
(json/numpy raises while loading it) or parsed to a value. -/
inductive FileContent (α : Type)
  | malformed
  | parsed (val : α)
deriving DecidableEq

/-- The in-memory and on-disk state of one `WisdomVectorStore`:
`data` is `self._data`, `embeddings` is `self._embeddings`
(`none` = the Python `None`), and the two file fields model
`wisdom_store.json` and `wisdom_embeddings.npy` (`none` = file absent). -/
structure StoreState where
  data : List WisdomItem
  embeddings : Option (List Vec)
  dataFile : Option (FileContent (List WisdomItem))
  embFile : Option (FileContent (List Vec))

/-- The error modelling an uncaught parse exception escaping `_load`
(the spec calls it `CorruptStoreError`). -/
inductive CorruptStoreError
  | dataFileCorrupt
  | embeddingsFileCorrupt
deriving DecidableEq, Repr

/-- `_load`: read the records file (if present) then the embeddings file
(if present); a present-but-unparsable file aborts loading with an error. -/
def loadCollections (df : Option (FileContent (List WisdomItem)))
    (ef : Option (FileContent (List Vec))) :
    Except CorruptStoreError (List WisdomItem × Option (List Vec)) :=
  match df with
  | some .malformed => .error .dataFileCorrupt
  | none =>
    match ef with
    | some .malformed => .error .embeddingsFileCorrupt
    | none => .ok ([], none)
    | some (.parsed e) => .ok ([], some e)
  | some (.parsed d) =>
    match ef with
    | some .malformed => .error .embeddingsFileCorrupt
    | none => .ok (d, none)
    | some (.parsed e) => .ok (d, some e)

/-- `__init__`: construct a store over the two given files; a parse
failure propagates and no store value is produced. -/
def openStore (df : Option (FileContent (List WisdomItem)))
    (ef : Option (FileContent (List Vec))) : Except CorruptStoreError StoreState :=
  (loadCollections df ef).map fun de => ⟨de.1, de.2, df, ef⟩

/-- `_save`: overwrite the records file with `self._data`; overwrite the
embeddings file with `self._embeddings` only when the latter is not `None`. -/
def saveStore (s : StoreState) : StoreState :=
  { s with
    dataFile := some (.parsed s.data)
    embFile :=
      match s.embeddings with
      | none => s.embFile
      | some rows => some (.parsed rows) }

/-- `add_wisdom`: append the item dict, append one embedding row
(`np.vstack`, or a fresh one-row matrix when `self._embeddings is None`),
then `_save`. -/
def addWisdom (embed : String → Vec) (s : StoreState) (w : MungerWisdom) : StoreState :=
  let item := wisdomToItem w
  let e := embed w.content
  saveStore
    { s with
      data := s.data ++ [item]
      embeddings :=
        match s.embeddings with
        | none => some [e]
        | some rows => some (rows ++ [e]) }

/-- `add_wisdom_batch`: no-op on an empty batch, otherwise extend the
record list, stack all new embedding rows, then `_save`. -/
def addWisdomBatch (embed : String → Vec) (s : StoreState)
    (ws : List MungerWisdom) : StoreState :=
  if ws.isEmpty then s
  else
    let items := ws.map wisdomToItem
    let es := ws.map fun w => embed w.content
    saveStore
      { s with
        data := s.data ++ items
        embeddings :=
          match s.embeddings with
          | none => some es
          | some rows => some (rows ++ es) }

/-- Index of the first item satisfying `p` (the scan of the `delete` loop). -/
def firstMatch (p : WisdomItem → Bool) : List WisdomItem → Option Nat
  | [] => none
  | x :: xs => if p x then some 0 else (firstMatch p xs).map (· + 1)

/-- `delete`: pop the first record whose `id` equals the argument, delete
the embedding row at the same index when the matrix has one, `_save`, and
return; when no record matches, do nothing. -/
def deleteWisdom (s : StoreState) (wid : String) : StoreState :=
  match firstMatch (fun item => item.id == wid) s.data with
  | none => s
  | some i =>
    saveStore
      { s with
        data := s.data.eraseIdx i
        embeddings :=
          match s.embeddings with
          | none => none
          | some rows => if i < rows.length then some (rows.eraseIdx i) else some rows }

/-- `clear`: drop the in-memory collections and remove both backing files
(`unlink` guarded by `exists`, so an absent file is fine and no error is
possible). -/
def clearStore (_s : StoreState) : StoreState :=
  { data := [], embeddings := none, dataFile := none, embFile := none }

/-- Number of rows of `self._embeddings` (`None` has no rows). -/
def embRowCount : Option (List Vec) → Nat
  | none => 0
  | some rows => rows.length

/-- In-memory invariant: record count equals embedding row count. -/
def memSync (s : StoreState) : Prop := embRowCount s.embeddings = s.data.length

/-- On-disk invariant: the backing files are either both absent or both
present, parsable, and of equal row count (never individually out of sync). -/
def filesSync (s : StoreState) : Prop :=
  (s.dataFile = none ∧ s.embFile = none) ∨
    ∃ d e, s.dataFile = some (.parsed d) ∧ s.embFile = some (.parsed e) ∧
      d.length = e.length

/-- The full store invariant of the spec. -/
def storeInv (s : StoreState) : Prop := memSync s ∧ filesSync s

/-! ### Similarity search -/

/-- Cosine similarity of the query against one stored row, exactly as
computed in `search`: the denominator `‖row‖ * ‖query‖` is replaced by
`1` where it is zero (`np.where(norms == 0, 1, norms)`). -/
noncomputable def similarity (q row : Vec) : ℝ :=
  dotList row q / (if l2norm row * l2norm q = 0 then 1 else l2norm row * l2norm q)

/-- The vector of cosine similarities, one per stored row. -/
noncomputable def simList (q : Vec) (rows : List Vec) : List ℝ :=
  rows.map (similarity q)

/-- Index order used to model `np.argsort sims`: ascending by similarity
value.  The tie component (ascending index) is a determinization: the
source's default quicksort promises no tie order, and only coincides
with this stable order on arrays small enough (≤ 16) for numpy's
insertion-sort base case. -/
def argsortLe (s : List ℝ) (i j : Nat) : Prop :=
  s.getD i 0 < s.getD j 0 ∨ (s.getD i 0 = s.getD j 0 ∧ i ≤ j)

noncomputable instance argsortLeDec (s : List ℝ) : DecidableRel (argsortLe s) :=
  fun _ _ => inferInstanceAs (Decidable (_ ∨ _))

instance argsortLeTotal (s : List ℝ) : IsTotal Nat (argsortLe s) := by
  constructor
  intro i j
  rcases lt_trichotomy (s.getD i 0) (s.getD j 0) with h | h | h
  · exact Or.inl (Or.inl h)
  · rcases Nat.le_total i j with hij | hij
    · exact Or.inl (Or.inr ⟨h, hij⟩)
    · exact Or.inr (Or.inr ⟨h.symm, hij⟩)
  · exact Or.inr (Or.inl h)

instance argsortLeTrans (s : List ℝ) : IsTrans Nat (argsortLe s) := by
  constructor
  intro i j k hij hjk
  rcases hij with h₁ | ⟨h₁, hi⟩ <;> rcases hjk with h₂ | ⟨h₂, hj⟩
  · exact Or.inl (h₁.trans h₂)
  · exact Or.inl (h₂ ▸ h₁)
  · exact Or.inl (h₁ ▸ h₂)
  · exact Or.inr ⟨h₁.trans h₂, hi.trans hj⟩

/-- `np.argsort(similarities)`: the indices `0, …, n-1` sorted ascending
by similarity, ties keeping index order. -/
noncomputable def argsort (s : List ℝ) : List Nat :=
  List.insertionSort (argsortLe s) (List.range s.length)

/-- `np.argsort(similarities)[::-1]`: the candidate ranking walked by the
`search` loop. -/
noncomputable def ranking (s : List ℝ) : List Nat := (argsort s).reverse

/-- The two `continue` guards of the `search` loop: a record passes when
`category` is `None` or equal to its category string, and when `tags` is
`None` or empty (both falsy in Python) or intersects its tag list. -/
def passesFilters (category : Option WisdomCategory) (tags : Option (List String))
    (item : WisdomItem) : Bool :=
  (match category with
   | none => true
   | some c => item.category == c.value) &&
  (match tags with
   | none => true
   | some ts => ts.isEmpty || ts.any fun t => item.tags.contains t)

/-- Metadata sub-dict of a search result (`tags` and `related_models`
are comma-joined strings, as in the code). -/
structure ResultMetadata where
  category : String
  title : String
  source : String
  tags : String
  related_models : String
deriving DecidableEq, Repr

/-- One element of the list returned by `search`. -/
structure SearchResult where
  id : String
  content : String
  metadata : ResultMetadata
  distance : ℝ

/-- The result dict appended for an accepted record. -/
def mkResult (item : WisdomItem) (dist : ℝ) : SearchResult :=
  { id := item.id
    content := item.content
    metadata :=
      { category := item.category
        title := item.title
        source := item.source
        tags := String.intercalate "," item.tags
        related_models := String.intercalate "," item.related_models }
    distance := dist }

/-- The result built from the record at index `idx` of the store, with
`distance = 1 - similarities[idx]`. -/
def resultOf (s : StoreState) (sims : List ℝ) (idx : Nat) : SearchResult :=
  mkResult (s.data.getD idx default) (1 - sims.getD idx 0)

/-- The `for idx in indices` loop of `search`: stop as soon as
`n_results` results have been accepted, skip filtered records, append
accepted ones. -/
noncomputable def searchLoop (s : StoreState) (sims : List ℝ) (n : Nat)
    (category : Option WisdomCategory) (tags : Option (List String)) :
    List Nat → List SearchResult → List SearchResult
  | [], acc => acc
  | idx :: rest, acc =>
    if n ≤ acc.length then acc
    else if passesFilters category tags (s.data.getD idx default) then
      searchLoop s sims n category tags rest (acc ++ [resultOf s sims idx])
    else
      searchLoop s sims n category tags rest acc

/-- `search`: empty result on an empty store (or absent matrix);
otherwise embed the query, compute similarities, rank, and walk the
ranking through the filter loop. -/
noncomputable def search (embed : String → Vec) (s : StoreState) (query : String)
    (n : Nat) (category : Option WisdomCategory) (tags : Option (List String)) :
    List SearchResult :=
  if s.data.isEmpty || s.embeddings.isNone then []
  else
    let qv := embed query
    let sims := simList qv (s.embeddings.getD [])
    searchLoop s sims n category tags (ranking sims) []

/-! ### Search by mental model -/

/-- Substring containment on character lists (Python's `in` on strings). -/
def charsContains (pat : List Char) : List Char → Bool
  | [] => pat.isEmpty
  | c :: rest => List.isPrefixOf pat (c :: rest) || charsContains pat rest

/-- `pat in s` for Python strings. -/
def strContains (pat s : String) : Bool := charsContains pat.data s.data

/-- Python's `str.lower()`, modelled as per-character lowering (the same
`Char.toLower` map that `String.toLower` performs, written over the
character list so it reduces). -/
def lowerStr (s : String) : String := ⟨s.data.map Char.toLower⟩

/-- The per-result flag of `search_by_mental_model`:
`model_name.lower() in related_models_joined.lower()`. -/
def modelMatchFlag (modelName related : String) : Bool :=
  strContains (lowerStr modelName) (lowerStr related)

/-- A search result together with its `model_match` flag. -/
structure ModelSearchResult where
  result : SearchResult
  model_match : Bool

/-- The sort key order `(not model_match, distance)` of
`search_by_mental_model` (lexicographic, `False < True`). -/
def mmKeyLe (a b : ModelSearchResult) : Prop :=
  (a.model_match = true ∧ b.model_match = false) ∨
    (a.model_match = b.model_match ∧ a.result.distance ≤ b.result.distance)

noncomputable instance mmKeyLeDec : DecidableRel mmKeyLe :=
  fun _ _ => inferInstanceAs (Decidable (_ ∨ _))

instance mmKeyLeTotal : IsTotal ModelSearchResult mmKeyLe := by
  constructor
  intro a b
  rcases ha : a.model_match <;> rcases hb : b.model_match
  · rcases le_total a.result.distance b.result.distance with h | h
    · exact Or.inl (Or.inr ⟨ha.trans hb.symm, h⟩)
    · exact Or.inr (Or.inr ⟨hb.trans ha.symm, h⟩)
  · exact Or.inr (Or.inl ⟨hb, ha⟩)
  · exact Or.inl (Or.inl ⟨ha, hb⟩)
  · rcases le_total a.result.distance b.result.distance with h | h
    · exact Or.inl (Or.inr ⟨ha.trans hb.symm, h⟩)
    · exact Or.inr (Or.inr ⟨hb.trans ha.symm, h⟩)

instance mmKeyLeTrans : IsTrans ModelSearchResult mmKeyLe := by
  constructor
  intro a b c hab hbc
  rcases hab with ⟨ha, hb⟩ | ⟨hab, hd₁⟩ <;> rcases hbc with ⟨hb', hc⟩ | ⟨hbc, hd₂⟩
  · rw [hb] at hb'
    exact absurd hb' (by simp)
  · exact Or.inl ⟨ha, hbc ▸ hb⟩
  · exact Or.inl ⟨hab ▸ hb', hc⟩
  · exact Or.inr ⟨hab.trans hbc, hd₁.trans hd₂⟩

/-- `search_by_mental_model`: fetch `2 * n_results` via `search` with the
model name as query, tag each result with its `model_match` flag, re-sort
stably by `(not model_match, distance)`, truncate to `n_results`. -/
noncomputable def searchByMentalModel (embed : String → Vec) (s : StoreState)
    (modelName : String) (n : Nat) : List ModelSearchResult :=
  (List.insertionSort mmKeyLe
    ((search embed s modelName (n * 2) none none).map fun r =>
      ⟨r, modelMatchFlag modelName r.metadata.related_models⟩)).take n

/-! ### Helper lemmas -/

lemma firstMatch_spec (p : WisdomItem → Bool) :
    ∀ (l : List WisdomItem) (i : Nat), firstMatch p l = some i →
      i < l.length ∧ p (l.getD i default) = true ∧
        ∀ j, j < i → p (l.getD j default) = false := by
  intro l
  induction l with
  | nil => intro i h; simp [firstMatch] at h
  | cons x xs ih =>
    intro i h
    by_cases hx : p x
    · simp only [firstMatch, hx, if_pos] at h
      obtain rfl : (0 : Nat) = i := Option.some.inj h
      refine ⟨Nat.succ_pos _, by simpa using hx, fun j hj => absurd hj (Nat.not_lt_zero j)⟩
    · simp only [firstMatch, hx, if_neg, Bool.false_eq_true] at h
      cases hfx : firstMatch p xs with
      | none => rw [hfx] at h; simp at h
      | some i' =>
      rw [hfx] at h
      simp only [Option.map_some'] at h
      obtain rfl : i' + 1 = i := Option.some.inj h
      obtain ⟨hlt, hp, hbefore⟩ := ih i' hfx
      refine ⟨Nat.succ_lt_succ hlt, by simpa using hp, ?_⟩
      intro j hj
      cases j with
      | zero => simpa using hx
      | succ j' => simpa using hbefore j' (Nat.lt_of_succ_lt_succ hj)

lemma saveStore_data (s : StoreState) : (saveStore s).data = s.data := rfl

lemma saveStore_embeddings (s : StoreState) : (saveStore s).embeddings = s.embeddings := rfl

/-! ### C2: the mutation operations preserve the store invariant -/

lemma storeInv_clear (s : StoreState) : storeInv (clearStore s) :=
  ⟨rfl, Or.inl ⟨rfl, rfl⟩⟩

lemma storeInv_add (embed : String → Vec) (s : StoreState) (w : MungerWisdom)
    (h : storeInv s) : storeInv (addWisdom embed s w) := by
  obtain ⟨hm, _⟩ := h
  unfold memSync at hm
  cases he : s.embeddings with
  | none =>
    rw [he] at hm
    have hdata : s.data = [] := (List.length_eq_zero.mp hm.symm)
    constructor
    · show embRowCount _ = _
      simp [addWisdom, saveStore, he, embRowCount, hdata]
    · refine Or.inr ⟨s.data ++ [wisdomToItem w], [embed w.content], ?_, ?_, ?_⟩
      · simp [addWisdom, saveStore, he]
      · simp [addWisdom, saveStore, he]
      · simp [hdata]
  | some rows =>
    rw [he] at hm
    constructor
    · show embRowCount _ = _
      simp only [addWisdom, saveStore, he, embRowCount]
      simp only [embRowCount] at hm
      simp [hm]
    · refine Or.inr ⟨s.data ++ [wisdomToItem w], rows ++ [embed w.content], ?_, ?_, ?_⟩
      · simp [addWisdom, saveStore, he]
      · simp [addWisdom, saveStore, he]
      · simp only [embRowCount] at hm
        simp [hm]

lemma storeInv_addBatch (embed : String → Vec) (s : StoreState) (ws : List MungerWisdom)
    (h : storeInv s) : storeInv (addWisdomBatch embed s ws) := by
  obtain ⟨hm, hf⟩ := h
  unfold memSync at hm
  by_cases hws : ws.isEmpty
  · simpa [addWisdomBatch, hws] using And.intro hm hf
  · cases he : s.embeddings with
    | none =>
      rw [he] at hm
      have hdata : s.data = [] := (List.length_eq_zero.mp hm.symm)
      constructor
      · show embRowCount _ = _
        simp [addWisdomBatch, hws, saveStore, he, embRowCount, hdata]
      · refine Or.inr ⟨s.data ++ ws.map wisdomToItem,
          ws.map fun w => embed w.content, ?_, ?_, ?_⟩
        · simp [addWisdomBatch, hws, saveStore, he]
        · simp [addWisdomBatch, hws, saveStore, he]
        · simp [hdata]
    | some rows =>
      rw [he] at hm
      simp only [embRowCount] at hm
      constructor
      · show embRowCount _ = _
        simp [addWisdomBatch, hws, saveStore, he, embRowCount, hm]
      · refine Or.inr ⟨s.data ++ ws.map wisdomToItem,
          rows ++ ws.map fun w => embed w.content, ?_, ?_, ?_⟩
        · simp [addWisdomBatch, hws, saveStore, he]
        · simp [addWisdomBatch, hws, saveStore, he]
        · simp [hm]

lemma storeInv_delete (s : StoreState) (wid : String)
    (h : storeInv s) : storeInv (deleteWisdom s wid) := by
  obtain ⟨hm, hf⟩ := h
  unfold memSync at hm
  cases hfind : firstMatch (fun item => item.id == wid) s.data with
  | none => simpa [deleteWisdom, hfind] using And.intro hm hf
  | some i =>
    obtain ⟨hlt, -, -⟩ := firstMatch_spec _ _ _ hfind
    cases he : s.embeddings with
    | none =>
      rw [he] at hm
      simp only [embRowCount] at hm
      omega
    | some rows =>
      rw [he] at hm
      simp only [embRowCount] at hm
      have hirows : i < rows.length := hm ▸ hlt
      constructor
      · show embRowCount _ = _
        simp only [deleteWisdom, hfind, saveStore, he, if_pos hirows, embRowCount]
        rw [List.length_eraseIdx_of_lt hirows, List.length_eraseIdx_of_lt hlt, hm]
      · refine Or.inr ⟨s.data.eraseIdx i, rows.eraseIdx i, ?_, ?_, ?_⟩
        · simp [deleteWisdom, hfind, saveStore, he, if_pos hirows]
        · simp [deleteWisdom, hfind, saveStore, he, if_pos hirows]
        · rw [List.length_eraseIdx_of_lt hirows, List.length_eraseIdx_of_lt hlt, hm]

/-- C2: starting from a state satisfying the store invariant, each of
`add_wisdom`, `add_wisdom_batch`, `delete` and `clear` yields a state in
which the record count equals the embedding row count and the two backing
files are both absent or both present with matching row counts (never
individually out of sync). -/
theorem mutations_preserve_storeInv (embed : String → Vec) (s : StoreState)
    (w : MungerWisdom) (ws : List MungerWisdom) (wid : String)
    (h : storeInv s) :
    storeInv (addWisdom embed s w) ∧ storeInv (addWisdomBatch embed s ws) ∧
      storeInv (deleteWisdom s wid) ∧ storeInv (clearStore s) :=
  ⟨storeInv_add embed s w h, storeInv_addBatch embed s ws h,
    storeInv_delete s wid h, storeInv_clear s⟩

/-- Witness for C2 at a concrete store and wisdom record. -/
theorem mutations_preserve_storeInv_witness :
    storeInv (addWisdom (fun _ => [(1 : ℝ)]) ⟨[], none, none, none⟩
        ⟨"id0", .quote, "t", "c", "s", none, [], []⟩) ∧
      storeInv (addWisdomBatch (fun _ => [(1 : ℝ)]) ⟨[], none, none, none⟩ []) ∧
      storeInv (deleteWisdom ⟨[], none, none, none⟩ "id0") ∧
      storeInv (clearStore ⟨[], none, none, none⟩) :=
  mutations_preserve_storeInv (fun _ => [(1 : ℝ)]) ⟨[], none, none, none⟩
    ⟨"id0", .quote, "t", "c", "s", none, [], []⟩ [] "id0" ⟨rfl, Or.inl ⟨rfl, rfl⟩⟩

/-! ### C5: corrupt or missing backing files at construction -/

/-- C5: loading fails (with the error propagated, never silently
falling back to an empty store) exactly when a present file is
unparsable, and a missing file initializes the corresponding collection
empty without error.  Since `openStore` returns `Except.error` in the
corrupt cases, no store value — hence no partial state — is exposed. -/
theorem load_corrupt_or_missing (d : List WisdomItem) (e : List Vec)
    (ef : Option (FileContent (List Vec))) :
    loadCollections none none = .ok ([], none) ∧
      loadCollections (some .malformed) ef = .error .dataFileCorrupt ∧
      loadCollections (some (.parsed d)) (some .malformed) =
        .error .embeddingsFileCorrupt ∧
      loadCollections none (some .malformed) = .error .embeddingsFileCorrupt ∧
      loadCollections (some (.parsed d)) none = .ok (d, none) ∧
      loadCollections (some (.parsed d)) (some (.parsed e)) = .ok (d, some e) ∧
      loadCollections none (some (.parsed e)) = .ok ([], some e) ∧
      openStore (some .malformed) ef = .error .dataFileCorrupt ∧
      openStore (some (.parsed d)) (some .malformed) = .error .embeddingsFileCorrupt :=
  ⟨rfl, rfl, rfl, rfl, rfl, rfl, rfl, rfl, rfl⟩

/-! ### C8: add followed by reopen round-trips the record -/

/-- C8: after `add_wisdom`, reopening a store from the same backing
files succeeds and yields the old record list extended by exactly the
added item, whose persisted fields (id, category, title, content,
source, tags, related_models, year) each equal the corresponding field
of the added wisdom; the record count grows by exactly one. -/
theorem addWisdom_reopen_roundtrip (embed : String → Vec) (s : StoreState)
    (w : MungerWisdom) :
    ∃ s₂, openStore (addWisdom embed s w).dataFile (addWisdom embed s w).embFile =
        .ok s₂ ∧
      s₂.data = s.data ++ [wisdomToItem w] ∧
      s₂.data.length = s.data.length + 1 ∧
      (wisdomToItem w).id = w.id ∧
      (wisdomToItem w).category = w.category.value ∧
      (wisdomToItem w).title = w.title ∧
      (wisdomToItem w).content = w.content ∧
      (wisdomToItem w).source = w.source ∧
      (wisdomToItem w).tags = w.tags ∧
      (wisdomToItem w).related_models = w.related_models ∧
      (wisdomToItem w).year = w.year := by
  cases he : s.embeddings with
  | none =>
    refine ⟨⟨s.data ++ [wisdomToItem w], some [embed w.content],
        some (.parsed (s.data ++ [wisdomToItem w])),
        some (.parsed [embed w.content])⟩,
      ?_, rfl, by simp, rfl, rfl, rfl, rfl, rfl, rfl, rfl, rfl⟩
    simp [addWisdom, saveStore, he, openStore, loadCollections, Except.map]
  | some rows =>
    refine ⟨⟨s.data ++ [wisdomToItem w], some (rows ++ [embed w.content]),
        some (.parsed (s.data ++ [wisdomToItem w])),
        some (.parsed (rows ++ [embed w.content]))⟩,
      ?_, rfl, by simp, rfl, rfl, rfl, rfl, rfl, rfl, rfl, rfl⟩
    simp [addWisdom, saveStore, he, openStore, loadCollections, Except.map]

/-! ### C9: clear is idempotent -/

/-- C9: `clear` always produces the empty store with both backing files
absent, and a second `clear` is the identity on that state; `clear` is a
total function of the model (absence of either backing file cannot make
it fail). -/
theorem clear_idempotent (s : StoreState) :
    (clearStore s).data = [] ∧ (clearStore s).embeddings = none ∧
      (clearStore s).dataFile = none ∧ (clearStore s).embFile = none ∧
      clearStore (clearStore s) = clearStore s :=
  ⟨rfl, rfl, rfl, rfl, rfl⟩

/-! ### Similarity bounds (Cauchy–Schwarz over the real model) -/

lemma list_sum_getD (l : List ℝ) :
    l.sum = ∑ i in Finset.range l.length, l.getD i 0 := by
  induction l with
  | nil => simp
  | cons x xs ih =>
    rw [List.sum_cons, List.length_cons, Finset.sum_range_succ']
    simp only [List.getD_cons_succ, List.getD_cons_zero]
    rw [← ih, add_comm]

lemma normSq_eq_sum (a : Vec) :
    normSq a = ∑ i in Finset.range a.length, a.getD i 0 ^ 2 := by
  rw [normSq, list_sum_getD, List.length_map]
  refine Finset.sum_congr rfl fun i hi => ?_
  rw [Finset.mem_range] at hi
  rw [List.getD_eq_getElem _ _ (by simpa using hi), List.getElem_map,
    List.getD_eq_getElem _ _ hi, sq]

lemma normSq_nonneg (a : Vec) : 0 ≤ normSq a := by
  rw [normSq_eq_sum]
  exact Finset.sum_nonneg fun i _ => sq_nonneg _

lemma dotList_eq_sum (a b : Vec) :
    dotList a b = ∑ i in Finset.range (List.zipWith (fun x y => x * y) a b).length,
      a.getD i 0 * b.getD i 0 := by
  rw [dotList, list_sum_getD]
  refine Finset.sum_congr rfl fun i hi => ?_
  rw [Finset.mem_range] at hi
  have hia : i < a.length :=
    lt_of_lt_of_le hi (by rw [List.length_zipWith]; exact Nat.min_le_left _ _)
  have hib : i < b.length :=
    lt_of_lt_of_le hi (by rw [List.length_zipWith]; exact Nat.min_le_right _ _)
  rw [List.getD_eq_getElem _ _ hi, List.getElem_zipWith,
    List.getD_eq_getElem _ _ hia, List.getD_eq_getElem _ _ hib]

lemma dotList_comm (a b : Vec) : dotList a b = dotList b a := by
  unfold dotList
  rw [List.zipWith_comm_of_comm _ mul_comm]

lemma dotList_sq_le (a b : Vec) : dotList a b ^ 2 ≤ normSq a * normSq b := by
  rw [dotList_eq_sum]
  set n := (List.zipWith (fun x y => x * y) a b).length with hn
  have hna : n ≤ a.length := by rw [hn, List.length_zipWith]; exact Nat.min_le_left _ _
  have hnb : n ≤ b.length := by rw [hn, List.length_zipWith]; exact Nat.min_le_right _ _
  have hcs := Finset.sum_mul_sq_le_sq_mul_sq (Finset.range n)
    (fun i => a.getD i 0) (fun i => b.getD i 0)
  refine hcs.trans (mul_le_mul ?_ ?_ (Finset.sum_nonneg fun i _ => sq_nonneg _)
    (normSq_nonneg a))
  · rw [normSq_eq_sum]
    exact Finset.sum_le_sum_of_subset_of_nonneg
      (Finset.range_subset.mpr hna) (fun i _ _ => sq_nonneg _)
  · rw [normSq_eq_sum]
    exact Finset.sum_le_sum_of_subset_of_nonneg
      (Finset.range_subset.mpr hnb) (fun i _ _ => sq_nonneg _)

lemma abs_dotList_le (a b : Vec) : |dotList a b| ≤ l2norm a * l2norm b := by
  rw [l2norm, l2norm, ← Real.sqrt_mul (normSq_nonneg a), ← Real.sqrt_sq_eq_abs]
  exact Real.sqrt_le_sqrt (dotList_sq_le a b)

lemma dotList_eq_zero_of_norm_zero {a b : Vec} (h : l2norm a * l2norm b = 0) :
    dotList a b = 0 := by
  have := abs_dotList_le a b
  rw [h] at this
  exact abs_eq_zero.mp (le_antisymm this (abs_nonneg _))

lemma similarity_abs_le_one (q row : Vec) : |similarity q row| ≤ 1 := by
  unfold similarity
  by_cases h : l2norm row * l2norm q = 0
  · rw [if_pos h, dotList_eq_zero_of_norm_zero h]
    simp
  · rw [if_neg h, abs_div]
    have hpos : 0 < l2norm row * l2norm q :=
      lt_of_le_of_ne (mul_nonneg (Real.sqrt_nonneg _) (Real.sqrt_nonneg _)) (Ne.symm h)
    rw [abs_of_pos hpos, div_le_one hpos]
    exact abs_dotList_le row q

lemma distance_bounds (q row : Vec) :
    0 ≤ 1 - similarity q row ∧ 1 - similarity q row ≤ 2 := by
  have h := abs_le.mp (similarity_abs_le_one q row)
  constructor <;> linarith [h.1, h.2]

/-! ### C4: zero-norm guard in the similarity computation -/

/-- C4: the denominator actually used by `search` is always strictly
positive (so no division by zero occurs); whenever the query norm or
the row norm is exactly zero the computed similarity is `0`; and
otherwise the similarity is exactly `dot(query, row)` divided by
`norm(query) * norm(row)`. -/
theorem similarity_guard (q row : Vec) :
    (0 < if l2norm row * l2norm q = 0 then 1 else l2norm row * l2norm q) ∧
      ((l2norm q = 0 ∨ l2norm row = 0) → similarity q row = 0) ∧
      (l2norm q ≠ 0 → l2norm row ≠ 0 →
        similarity q row = dotList q row / (l2norm q * l2norm row)) := by
  refine ⟨?_, ?_, ?_⟩
  · by_cases h : l2norm row * l2norm q = 0
    · rw [if_pos h]; exact one_pos
    · rw [if_neg h]
      exact lt_of_le_of_ne (mul_nonneg (Real.sqrt_nonneg _) (Real.sqrt_nonneg _))
        (Ne.symm h)
  · intro h
    have hz : l2norm row * l2norm q = 0 := by
      rcases h with h | h
      · rw [h, mul_zero]
      · rw [h, zero_mul]
    rw [similarity, if_pos hz, dotList_eq_zero_of_norm_zero hz, zero_div]
  · intro hq hrow
    rw [similarity, if_neg (mul_ne_zero hrow hq), dotList_comm, mul_comm]

/-- Witness for C4 at the zero query and zero row vectors. -/
theorem similarity_guard_witness : similarity [(0 : ℝ)] [(0 : ℝ)] = 0 :=
  (similarity_guard [(0 : ℝ)] [(0 : ℝ)]).2.1
    (Or.inl (by simp [l2norm, normSq]))

/-! ### The search loop as filter-then-take -/

lemma searchLoop_eq (s : StoreState) (sims : List ℝ) (n : Nat)
    (cat : Option WisdomCategory) (tags : Option (List String)) :
    ∀ (idxs : List Nat) (acc : List SearchResult),
      searchLoop s sims n cat tags idxs acc =
        if n ≤ acc.length then acc
        else acc ++
          ((idxs.filter fun i => passesFilters cat tags (s.data.getD i default)).take
            (n - acc.length)).map (resultOf s sims) := by
  intro idxs
  induction idxs with
  | nil =>
    intro acc
    by_cases h : n ≤ acc.length <;> simp [searchLoop, h]
  | cons idx rest ih =>
    intro acc
    simp only [searchLoop]
    by_cases h : n ≤ acc.length
    · rw [if_pos h, if_pos h]
    · rw [if_neg h, if_neg h, List.filter_cons]
      cases hp : passesFilters cat tags (s.data.getD idx default) with
      | false =>
        rw [if_neg (by simp), if_neg (by simp), ih acc, if_neg h]
      | true =>
        rw [if_pos rfl, if_pos rfl, ih (acc ++ [resultOf s sims idx])]
        have hlen : (acc ++ [resultOf s sims idx]).length = acc.length + 1 := by
          rw [List.length_append, List.length_cons, List.length_nil]
        rw [hlen]
        by_cases h2 : n ≤ acc.length + 1
        · rw [if_pos h2,
            show n - acc.length = 0 + 1 from by omega,
            List.take_succ_cons, List.take_zero, List.map_cons, List.map_nil]
        · rw [if_neg h2,
            show n - acc.length = (n - (acc.length + 1)) + 1 from by omega,
            List.take_succ_cons, List.map_cons, List.append_assoc,
            List.singleton_append]

lemma search_eq (embed : String → Vec) (s : StoreState) (query : String)
    (n : Nat) (cat : Option WisdomCategory) (tags : Option (List String))
    (hne : ¬ (s.data.isEmpty || s.embeddings.isNone) = true) :
    search embed s query n cat tags =
      (((ranking (simList (embed query) (s.embeddings.getD []))).filter fun i =>
          passesFilters cat tags (s.data.getD i default)).take n).map
        (resultOf s (simList (embed query) (s.embeddings.getD []))) := by
  rw [search, if_neg hne, searchLoop_eq]
  simp only [List.length_nil, Nat.sub_zero, List.nil_append]
  rcases Nat.eq_zero_or_pos n with rfl | hn
  · rw [if_pos (Nat.le_refl 0), List.take_zero, List.map_nil]
  · rw [if_neg (by omega)]

/-! ### Ranking order facts -/

lemma ranking_pairwise (sims : List ℝ) :
    List.Pairwise (fun a b => argsortLe sims b a) (ranking sims) := by
  rw [ranking, List.pairwise_reverse]
  exact List.sorted_insertionSort (argsortLe sims) (List.range sims.length)

lemma mem_ranking (sims : List ℝ) (i : Nat) :
    i ∈ ranking sims ↔ i < sims.length := by
  rw [ranking, List.mem_reverse, argsort, List.mem_insertionSort, List.mem_range]

lemma argsortLe_getD_le {sims : List ℝ} {i j : Nat} (h : argsortLe sims i j) :
    sims.getD i 0 ≤ sims.getD j 0 := by
  rcases h with h | ⟨h, -⟩
  · exact le_of_lt h
  · exact le_of_eq h

lemma simList_getD_abs_le (q : Vec) (rows : List Vec) (i : Nat) :
    |(simList q rows).getD i 0| ≤ 1 := by
  by_cases hi : i < (simList q rows).length
  · rw [List.getD_eq_getElem _ _ hi]
    have hi' : i < rows.length := by simpa [simList] using hi
    simp only [simList, List.getElem_map]
    exact similarity_abs_le_one q _
  · rw [List.getD_eq_default _ _ (le_of_not_lt hi)]
    simp

/-! ### C1: search returns at most k results, distances in [0,2], sorted -/

/-- C1: for every non-empty store, `search` returns at most `n_results`
results, every reported distance lies in `[0, 2]`, and the distances are
non-decreasing along the returned sequence. -/
theorem search_results_bounded (embed : String → Vec) (s : StoreState)
    (query : String) (k : Nat) (cat : Option WisdomCategory)
    (tags : Option (List String)) (hne : s.data ≠ []) :
    (search embed s query k cat tags).length ≤ k ∧
      (∀ r ∈ search embed s query k cat tags,
        0 ≤ r.distance ∧ r.distance ≤ 2) ∧
      List.Sorted (fun a b => a ≤ b)
        ((search embed s query k cat tags).map SearchResult.distance) := by
  by_cases hcase : (s.data.isEmpty || s.embeddings.isNone) = true
  · rw [search, if_pos hcase]
    simp
  · rw [search_eq embed s query k cat tags hcase]
    set sims := simList (embed query) (s.embeddings.getD []) with hsims
    set t := ((ranking sims).filter fun i =>
      passesFilters cat tags (s.data.getD i default)).take k with ht
    have htsub : List.Sublist t (ranking sims) :=
      (List.take_sublist _ _).trans (List.filter_sublist _)
    have htpw : List.Pairwise (fun a b => argsortLe sims b a) t :=
      (ranking_pairwise sims).sublist htsub
    refine ⟨?_, ?_, ?_⟩
    · rw [List.length_map, ht, List.length_take]
      exact min_le_left _ _
    · intro r hr
      rw [List.mem_map] at hr
      obtain ⟨i, -, rfl⟩ := hr
      have habs := abs_le.mp (simList_getD_abs_le (embed query)
        (s.embeddings.getD []) i)
      show 0 ≤ 1 - sims.getD i 0 ∧ 1 - sims.getD i 0 ≤ 2
      rw [hsims]
      constructor <;> [linarith [habs.2]; linarith [habs.1]]
    · rw [List.map_map]
      refine List.pairwise_map.mpr (htpw.imp ?_)
      intro a b hba
      have := argsortLe_getD_le hba
      show (1 : ℝ) - sims.getD a 0 ≤ 1 - sims.getD b 0
      linarith

/-- Witness for C1 at a concrete one-record store. -/
theorem search_results_bounded_witness :
    (search (fun _ => [(1 : ℝ)])
        ⟨[⟨"a", "quote", "t", "c", "s", [], [], none⟩], some [[(1 : ℝ)]],
          none, none⟩ "x" 1 none none).length ≤ 1 ∧
      (∀ r ∈ search (fun _ => [(1 : ℝ)])
          ⟨[⟨"a", "quote", "t", "c", "s", [], [], none⟩], some [[(1 : ℝ)]],
            none, none⟩ "x" 1 none none,
        0 ≤ r.distance ∧ r.distance ≤ 2) ∧
      List.Sorted (fun a b => a ≤ b)
        ((search (fun _ => [(1 : ℝ)])
            ⟨[⟨"a", "quote", "t", "c", "s", [], [], none⟩], some [[(1 : ℝ)]],
              none, none⟩ "x" 1 none none).map SearchResult.distance) :=
  search_results_bounded (fun _ => [(1 : ℝ)])
    ⟨[⟨"a", "quote", "t", "c", "s", [], [], none⟩], some [[(1 : ℝ)]], none, none⟩
    "x" 1 none none (List.cons_ne_nil _ _)

/-! ### C6: delete removes exactly one aligned record/row pair, or is a no-op -/

/-- C6: under the row-count invariant, if some record has the requested
id then `delete` removes the record at the first matching index and the
embedding row at the same index — the remaining records and rows are the
untouched prefix followed by the untouched suffix, in order — shrinking
both collections by exactly one and persisting both; if no record
matches, `delete` raises nothing and changes nothing (memory and files). -/
theorem delete_found_or_absent (s : StoreState) (wid : String)
    (hinv : embRowCount s.embeddings = s.data.length) :
    (∀ i, firstMatch (fun item => item.id == wid) s.data = some i →
      ∃ rows, s.embeddings = some rows ∧
        (deleteWisdom s wid).data = s.data.take i ++ s.data.drop (i + 1) ∧
        (deleteWisdom s wid).embeddings = some (rows.take i ++ rows.drop (i + 1)) ∧
        (deleteWisdom s wid).data.length + 1 = s.data.length ∧
        embRowCount (deleteWisdom s wid).embeddings + 1 = embRowCount s.embeddings ∧
        (s.data.getD i default).id = wid ∧
        (deleteWisdom s wid).dataFile = some (.parsed (deleteWisdom s wid).data) ∧
        (deleteWisdom s wid).embFile =
          some (.parsed (rows.take i ++ rows.drop (i + 1)))) ∧
      (firstMatch (fun item => item.id == wid) s.data = none →
        deleteWisdom s wid = s) := by
  constructor
  · intro i hfind
    obtain ⟨hlt, hp, -⟩ := firstMatch_spec _ _ _ hfind
    cases he : s.embeddings with
    | none =>
      rw [he] at hinv
      simp only [embRowCount] at hinv
      omega
    | some rows =>
      rw [he] at hinv
      simp only [embRowCount] at hinv
      have hirows : i < rows.length := hinv ▸ hlt
      refine ⟨rows, rfl, ?_, ?_, ?_, ?_, ?_, ?_, ?_⟩
      · simp only [deleteWisdom, hfind, he, saveStore, if_pos hirows]
        exact List.eraseIdx_eq_take_drop_succ s.data i
      · simp only [deleteWisdom, hfind, he, saveStore, if_pos hirows]
        rw [List.eraseIdx_eq_take_drop_succ]
      · simp only [deleteWisdom, hfind, he, saveStore, if_pos hirows]
        exact List.length_eraseIdx_add_one hlt
      · simp only [deleteWisdom, hfind, he, saveStore, if_pos hirows, embRowCount]
        exact List.length_eraseIdx_add_one hirows
      · exact beq_iff_eq.mp hp
      · simp only [deleteWisdom, hfind, he, saveStore, if_pos hirows]
      · simp only [deleteWisdom, hfind, he, saveStore, if_pos hirows]
        rw [List.eraseIdx_eq_take_drop_succ]
  · intro hnone
    simp only [deleteWisdom, hnone]

/-- Witness for C6 at a concrete one-record store (id found at index 0). -/
theorem delete_found_or_absent_witness :
    (∀ i, firstMatch (fun item => item.id == "a")
        [(⟨"a", "quote", "t", "c", "s", [], [], none⟩ : WisdomItem)] = some i →
      ∃ rows, (some [[(2 : ℝ)]] : Option (List Vec)) = some rows ∧
        (deleteWisdom ⟨[⟨"a", "quote", "t", "c", "s", [], [], none⟩],
            some [[(2 : ℝ)]], none, none⟩ "a").data =
          [(⟨"a", "quote", "t", "c", "s", [], [], none⟩ : WisdomItem)].take i ++
            [(⟨"a", "quote", "t", "c", "s", [], [], none⟩ : WisdomItem)].drop (i + 1) ∧
        (deleteWisdom ⟨[⟨"a", "quote", "t", "c", "s", [], [], none⟩],
            some [[(2 : ℝ)]], none, none⟩ "a").embeddings =
          some (rows.take i ++ rows.drop (i + 1)) ∧
        (deleteWisdom ⟨[⟨"a", "quote", "t", "c", "s", [], [], none⟩],
            some [[(2 : ℝ)]], none, none⟩ "a").data.length + 1 =
          [(⟨"a", "quote", "t", "c", "s", [], [], none⟩ : WisdomItem)].length ∧
        embRowCount (deleteWisdom ⟨[⟨"a", "quote", "t", "c", "s", [], [], none⟩],
            some [[(2 : ℝ)]], none, none⟩ "a").embeddings + 1 =
          embRowCount (some [[(2 : ℝ)]]) ∧
        ([(⟨"a", "quote", "t", "c", "s", [], [], none⟩ : WisdomItem)].getD i
          default).id = "a" ∧
        (deleteWisdom ⟨[⟨"a", "quote", "t", "c", "s", [], [], none⟩],
            some [[(2 : ℝ)]], none, none⟩ "a").dataFile =
          some (.parsed (deleteWisdom ⟨[⟨"a", "quote", "t", "c", "s", [], [], none⟩],
            some [[(2 : ℝ)]], none, none⟩ "a").data) ∧
        (deleteWisdom ⟨[⟨"a", "quote", "t", "c", "s", [], [], none⟩],
            some [[(2 : ℝ)]], none, none⟩ "a").embFile =
          some (.parsed (rows.take i ++ rows.drop (i + 1)))) ∧
      (firstMatch (fun item => item.id == "a")
          [(⟨"a", "quote", "t", "c", "s", [], [], none⟩ : WisdomItem)] = none →
        deleteWisdom ⟨[⟨"a", "quote", "t", "c", "s", [], [], none⟩],
          some [[(2 : ℝ)]], none, none⟩ "a" =
          ⟨[⟨"a", "quote", "t", "c", "s", [], [], none⟩],
            some [[(2 : ℝ)]], none, none⟩) :=
  delete_found_or_absent
    ⟨[⟨"a", "quote", "t", "c", "s", [], [], none⟩], some [[(2 : ℝ)]], none, none⟩
    "a" rfl

/-! ### Concrete example stores -/

/-- An example stored item with a given id and related-model list. -/
def exItem (idStr : String) (models : List String) : WisdomItem :=
  ⟨idStr, "quote", "t", "c", "s", [], models, none⟩

/-- An embedding function sending every text to the unit vector `[1]`. -/
def exEmbed : String → Vec := fun _ => [(1 : ℝ)]

/-- A two-record store whose rows are identical, so both records have the
same similarity to every query. -/
def exStore2 : StoreState :=
  ⟨[exItem "a" [], exItem "b" []], some [[(1 : ℝ)], [(1 : ℝ)]], none, none⟩

lemma similarity_one_one : similarity [(1 : ℝ)] [(1 : ℝ)] = 1 := by
  simp [similarity, dotList, l2norm, normSq, Real.sqrt_one]

lemma passesFilters_none_none (item : WisdomItem) :
    passesFilters none none item = true := rfl

lemma simList_exStore2 :
    simList (exEmbed "q") (exStore2.embeddings.getD []) = [(1 : ℝ), 1] := by
  show simList [(1 : ℝ)] [[(1 : ℝ)], [(1 : ℝ)]] = [(1 : ℝ), 1]
  simp [simList, similarity_one_one]

lemma argsortLe_one_one : argsortLe [(1 : ℝ), 1] 0 1 :=
  Or.inr ⟨rfl, Nat.zero_le 1⟩

lemma ranking_one_one : ranking [(1 : ℝ), 1] = [1, 0] := by
  unfold ranking argsort
  rw [show ([(1 : ℝ), 1]).length = 2 from rfl,
    show List.range 2 = [0, 1] from rfl]
  simp only [List.insertionSort, List.orderedInsert]
  rw [if_pos argsortLe_one_one]
  rfl

lemma search_exStore2 :
    search exEmbed exStore2 "q" 2 none none =
      [resultOf exStore2 [(1 : ℝ), 1] 1, resultOf exStore2 [(1 : ℝ), 1] 0] := by
  rw [search_eq exEmbed exStore2 "q" 2 none none (by decide), simList_exStore2,
    ranking_one_one,
    List.filter_eq_self.mpr (fun a _ => passesFilters_none_none _),
    List.take_of_length_le (by rw [show ([1, 0] : List Nat).length = 2 from rfl]),
    List.map_cons, List.map_cons, List.map_nil]

/-! ### C3: tie-breaking order of equal similarities -/

/-- C3 counterexample: in a store whose two records have exactly equal
similarity to the query, `search` returns the record with the LARGER
index first (ids come back as `["b", "a"]`, not `["a", "b"]`), so equal
ties are not broken by smaller index / insertion order. -/
theorem search_tie_counterexample :
    (simList (exEmbed "q") (exStore2.embeddings.getD [])).getD 0 0 =
        (simList (exEmbed "q") (exStore2.embeddings.getD [])).getD 1 0 ∧
      (search exEmbed exStore2 "q" 2 none none).map SearchResult.id = ["b", "a"] ∧
      (search exEmbed exStore2 "q" 2 none none).map SearchResult.id ≠ ["a", "b"] := by
  refine ⟨by rw [simList_exStore2]; rfl, ?_, ?_⟩
  · rw [search_exStore2]
    rfl
  · rw [search_exStore2]
    intro h
    have := congrArg (fun l => l.getD 0 "") h
    simp [resultOf, mkResult, exStore2, exItem] at this

/-- C3 amended: the ranking walked by `search` is sorted by similarity
descending — true for any tie order and hence independent of the
model's argsort determinization — but ties between exactly equal
similarities are NOT broken by smaller index / insertion order: on the
two-record store with equal similarities (an array of length 2, where
numpy's argsort provably runs its stable insertion-sort base case and
the `[::-1]` reversal flips the tie), the ranking puts index 1 before
index 0 and `search` returns the later-inserted record first.  For
larger arrays the source's default quicksort guarantees no particular
tie order, so no universal tie rule is claimed. -/
theorem ranking_sorted_desc_and_two_record_tie :
    (∀ sims : List ℝ,
      List.Sorted (fun a b => sims.getD b 0 ≤ sims.getD a 0) (ranking sims)) ∧
      ranking [(1 : ℝ), 1] = [1, 0] ∧
      (search exEmbed exStore2 "q" 2 none none).map SearchResult.id = ["b", "a"] := by
  refine ⟨fun sims => (ranking_pairwise sims).imp argsortLe_getD_le,
    ranking_one_one, ?_⟩
  rw [search_exStore2]
  rfl

/-! ### C7: search_by_mental_model ranks related-model matches first -/

lemma ranking_length (sims : List ℝ) : (ranking sims).length = sims.length := by
  rw [ranking, List.length_reverse, argsort, List.length_insertionSort,
    List.length_range]

/-- C7: on a five-record store where exactly one record's (comma-joined)
related models match the model name, `search_by_mental_model` with
`n_results = 3` fetches `3 * 2 = 6` candidates via the primary search
(returning all five records), marks each with its case-insensitive
containment flag, re-sorts matches first (ties by distance, stably), and
truncates — so the single matching record comes back first regardless of
its similarity rank, and at most 3 results are returned. -/
theorem searchByMentalModel_match_first (embed : String → Vec) (s : StoreState)
    (rows : List Vec) (m : Nat)
    (he : s.embeddings = some rows)
    (hd : s.data.length = 5) (hr : rows.length = 5) (hm : m < 5)
    (hflag : ∀ i, i < 5 →
      (modelMatchFlag "Inversion"
          (String.intercalate "," (s.data.getD i default).related_models) = true ↔
        i = m)) :
    (searchByMentalModel embed s "Inversion" 3).length ≤ 3 ∧
      List.Sorted mmKeyLe (searchByMentalModel embed s "Inversion" 3) ∧
      ∃ r rest, searchByMentalModel embed s "Inversion" 3 = r :: rest ∧
        r.model_match = true ∧ r.result.id = (s.data.getD m default).id := by
  have hne : ¬ (s.data.isEmpty || s.embeddings.isNone) = true := by
    simp only [he, Option.isNone_some, Bool.or_false]
    intro hc
    rw [List.isEmpty_iff] at hc
    rw [hc] at hd
    simp at hd
  set sims := simList (embed "Inversion") (s.embeddings.getD []) with hsims
  have hslen : sims.length = 5 := by
    rw [hsims, he]
    simp [simList, hr]
  have hsearch : search embed s "Inversion" (3 * 2) none none =
      (ranking sims).map (resultOf s sims) := by
    rw [search_eq embed s "Inversion" (3 * 2) none none hne,
      List.filter_eq_self.mpr (fun a _ => passesFilters_none_none _),
      List.take_of_length_le (by rw [ranking_length, hslen]; omega)]
  have hsbm : searchByMentalModel embed s "Inversion" 3 =
      (List.insertionSort mmKeyLe ((ranking sims).map fun i =>
        (⟨resultOf s sims i, modelMatchFlag "Inversion"
          (resultOf s sims i).metadata.related_models⟩ : ModelSearchResult))).take 3 := by
    simp only [searchByMentalModel]
    rw [hsearch, List.map_map]
    rfl
  set L := List.insertionSort mmKeyLe ((ranking sims).map fun i =>
    (⟨resultOf s sims i, modelMatchFlag "Inversion"
      (resultOf s sims i).metadata.related_models⟩ : ModelSearchResult)) with hLdef
  have hLlen : L.length = 5 := by
    rw [hLdef, List.length_insertionSort, List.length_map, ranking_length, hslen]
  obtain ⟨r, rest, hL⟩ : ∃ r rest, L = r :: rest := by
    cases hLc : L with
    | nil => rw [hLc] at hLlen; simp at hLlen
    | cons a t => exact ⟨a, t, rfl⟩
  have hflagm : modelMatchFlag "Inversion"
      ((resultOf s sims m).metadata.related_models) = true :=
    (hflag m hm).mpr rfl
  have hmemf : (⟨resultOf s sims m, true⟩ : ModelSearchResult) ∈ L := by
    rw [hLdef, List.mem_insertionSort, List.mem_map]
    refine ⟨m, (mem_ranking sims m).mpr (by omega), ?_⟩
    show (⟨resultOf s sims m, modelMatchFlag "Inversion"
      (resultOf s sims m).metadata.related_models⟩ : ModelSearchResult) =
        ⟨resultOf s sims m, true⟩
    rw [hflagm]
  have hsorted : List.Sorted mmKeyLe L := List.sorted_insertionSort mmKeyLe _
  have hrtrue : r.model_match = true := by
    by_contra hrf
    have hrf' : r.model_match = false := by
      cases hx : r.model_match
      · rfl
      · exact absurd hx hrf
    rw [hL] at hmemf
    rcases List.mem_cons.mp hmemf with heq | hmem
    · rw [← heq] at hrf'
      simp at hrf'
    · rw [hL] at hsorted
      have hrel := List.rel_of_sorted_cons hsorted _ hmem
      rcases hrel with ⟨h1, -⟩ | ⟨h1, -⟩
      · rw [hrf'] at h1
        simp at h1
      · rw [hrf'] at h1
        simp at h1
  have hrmem : r ∈ L := by
    rw [hL]
    exact List.mem_cons_self _ _
  rw [hLdef, List.mem_insertionSort, List.mem_map] at hrmem
  obtain ⟨i, hiR, hir⟩ := hrmem
  have hi5 : i < 5 := by
    rw [← hslen]
    exact (mem_ranking sims i).mp hiR
  have hflagi : modelMatchFlag "Inversion"
      (String.intercalate "," (s.data.getD i default).related_models) = true := by
    rw [← hir] at hrtrue
    exact hrtrue
  have him : i = m := (hflag i hi5).mp hflagi
  refine ⟨?_, ?_, r, rest.take 2, ?_, hrtrue, ?_⟩
  · rw [hsbm, List.length_take]
    exact min_le_left _ _
  · rw [hsbm]
    exact hsorted.sublist (List.take_sublist _ _)
  · rw [hsbm, hL, show (3 : Nat) = 2 + 1 from rfl, List.take_succ_cons]
  · rw [← hir, him]
    rfl

/-- A five-record store; only the record at index 2 (id `"c"`) carries
`related_models = ["Inversion"]`. -/
def exStore5 : StoreState :=
  ⟨[exItem "a" [], exItem "b" [], exItem "c" ["Inversion"], exItem "d" [],
      exItem "e" []],
    some [[(1 : ℝ)], [(1 : ℝ)], [(1 : ℝ)], [(1 : ℝ)], [(1 : ℝ)]], none, none⟩

/-- Witness for C7 at the concrete five-record store. -/
theorem searchByMentalModel_match_first_witness :
    (searchByMentalModel exEmbed exStore5 "Inversion" 3).length ≤ 3 ∧
      List.Sorted mmKeyLe (searchByMentalModel exEmbed exStore5 "Inversion" 3) ∧
      ∃ r rest, searchByMentalModel exEmbed exStore5 "Inversion" 3 = r :: rest ∧
        r.model_match = true ∧ r.result.id = (exStore5.data.getD 2 default).id :=
  searchByMentalModel_match_first exEmbed exStore5
    [[(1 : ℝ)], [(1 : ℝ)], [(1 : ℝ)], [(1 : ℝ)], [(1 : ℝ)]] 2 rfl rfl rfl
    (by omega) (by decide)

/-! ### C10: the match flag is substring containment, not exact equality -/

/-- C10: every result of `search_by_mental_model` carries a `model_match`
flag equal to substring containment of the lowercased model name in the
lowercased comma-joined `related_models` string; in particular a record
with `related_models = ["Inversion"]` is flagged as a match for the model
name `"version"` even though `"version"` equals no entry exactly. -/
theorem modelMatch_flag_is_substring (embed : String → Vec) (s : StoreState)
    (name : String) (k : Nat) :
    (∀ nm rel, modelMatchFlag nm rel = strContains (lowerStr nm) (lowerStr rel)) ∧
      ((searchByMentalModel embed s name k).all fun r =>
        r.model_match ==
          strContains (lowerStr name) (lowerStr r.result.metadata.related_models)) =
        true ∧
      modelMatchFlag "version" (String.intercalate "," ["Inversion"]) = true ∧
      (["Inversion"].contains "version") = false := by
  refine ⟨fun nm rel => rfl, ?_, by decide, by decide⟩
  rw [List.all_eq_true]
  intro r hr
  simp only [searchByMentalModel] at hr
  have hr' := (List.take_sublist _ _).subset hr
  rw [List.mem_insertionSort, List.mem_map] at hr'
  obtain ⟨sr, -, rfl⟩ := hr'
  simp [modelMatchFlag]

end Munger
